import Mathlib

/-!
Verification of `EditableStreamOverBuffer`
(src/sdk_file/msip_file/file/editable_stream_over_buffer.{h,cpp}).

The stream owns a byte buffer, a logical size and a cursor position.
We embed it shallowly:

* bytes are `Nat` values, the internal buffer a `List Nat`;
* the C++ `int64_t` fields `mSize` and `mPosition` are `Int` (the code
  never overflows them: `Insert` checks against `int64Max` first);
* a caller-supplied byte pointer is a function `Nat → Nat` from offset
  to byte, so reading `n` bytes from it is `(List.range n).map B`
  (pointer arithmetic on a valid region, as the C++ contract assumes);
* a C++ `throw` is an `Except.error` carrying the message, and every
  operation returns the state of the object after the call, so that the
  state left behind by a throwing call is visible.
-/

namespace EditableStreamOverBuffer

/-- The fields of `EditableStreamOverBuffer`: `mBuffer`, `mSize`
(`int64_t`), `mPosition` (`int64_t`). -/
structure EState where
  mBuffer : List Nat
  mSize : Int
  mPosition : Int
deriving Repr, DecidableEq

/-- `std::numeric_limits<int64_t>::max()`. -/
def int64Max : Int := 2 ^ 63 - 1

/-- The constructor: `mBuffer(buffer), mSize(buffer.size()), mPosition(0)`. -/
def mkStream (buffer : List Nat) : EState :=
  { mBuffer := buffer, mSize := (buffer.length : Int), mPosition := 0 }

/-- `Read(buffer, bufferLength)`: returns the byte count, the bytes
copied out (the `MEMCPY` from `&mBuffer[mPosition]`), and the state. -/
def Read (st : EState) (bufferLength : Int) : Int × List Nat × EState :=
  if bufferLength ≤ 0 then (0, [], st)
  else
    let bytesRead :=
      if bufferLength ≤ st.mSize - st.mPosition then bufferLength
      else st.mSize - st.mPosition
    if bytesRead ≠ 0 then
      (bytesRead, (st.mBuffer.drop st.mPosition.toNat).take bytesRead.toNat,
        { st with mPosition := st.mPosition + bytesRead })
    else
      (bytesRead, [], st)

/-- `Insert(buffer, bufferLength)`: `mBuffer.insert(begin + mPosition,
buffer, buffer + bufferLength)` is splicing the `bufferLength` bytes read
from the pointer at offset `mPosition`. -/
def Insert (st : EState) (buffer : Nat → Nat) (bufferLength : Int) :
    Except String Int × EState :=
  if bufferLength ≤ 0 then (Except.ok 0, st)
  else if int64Max - st.mSize < bufferLength then
    (Except.error "Inserting buffer would exceed maximum stream length.", st)
  else
    (Except.ok bufferLength,
      { mBuffer := st.mBuffer.take st.mPosition.toNat
          ++ (List.range bufferLength.toNat).map buffer
          ++ st.mBuffer.drop st.mPosition.toNat,
        mSize := st.mSize + bufferLength,
        mPosition := st.mPosition + bufferLength })

/-- `Delete(numBytes)`: erases `[begin + mPosition, begin + mPosition +
bytesDeleted)` from `mBuffer`. -/
def Delete (st : EState) (numBytes : Int) : Int × EState :=
  if numBytes ≤ 0 then (0, st)
  else
    let bytesDeleted :=
      if numBytes ≤ st.mSize - st.mPosition then numBytes
      else st.mSize - st.mPosition
    if bytesDeleted ≠ 0 then
      (bytesDeleted,
        { st with
          mBuffer := st.mBuffer.take st.mPosition.toNat
            ++ st.mBuffer.drop (st.mPosition + bytesDeleted).toNat,
          mSize := st.mSize - bytesDeleted })
    else
      (bytesDeleted, st)

/-- `Update(buffer, bufferLength, replaceLength)`:
`Delete(replaceLength); return Insert(buffer, bufferLength);`. -/
def Update (st : EState) (buffer : Nat → Nat) (bufferLength replaceLength : Int) :
    Except String Int × EState :=
  Insert (Delete st replaceLength).2 buffer bufferLength

/-- `Write(buffer, bufferLength)`: `return Update(buffer, bufferLength,
bufferLength);`. -/
def Write (st : EState) (buffer : Nat → Nat) (bufferLength : Int) :
    Except String Int × EState :=
  Update st buffer bufferLength bufferLength

/-- `Seek(position)`: throws when `position < 0` or `position > mSize`,
otherwise sets `mPosition`. -/
def Seek (st : EState) (position : Int) : Except String Unit × EState :=
  if position < 0 then
    (Except.error "Position must not be less than zero.", st)
  else if position > st.mSize then
    (Except.error "Position must not be larger than size.", st)
  else
    (Except.ok (), { st with mPosition := position })

/-- `Flush()`: `return true;`. -/
def Flush (st : EState) : Bool × EState := (true, st)

/-- `Position()` getter. -/
def Position (st : EState) : Int × EState := (st.mPosition, st)

/-- `Size()` getter. -/
def SizeGet (st : EState) : Int × EState := (st.mSize, st)

/-- `Size(value)` setter: `throw runtime_error("Not Implemented");`. -/
def SizeSet (st : EState) (_value : Int) : Except String Unit × EState :=
  (Except.error "Not Implemented", st)

/-- Whether a call outcome is a C++ throw. -/
def isErr {α : Type} : Except String α → Bool
  | Except.error _ => true
  | Except.ok _ => false

instance {ε α : Type} [DecidableEq ε] [DecidableEq α] :
    DecidableEq (Except ε α) := fun a b =>
  match a, b with
  | Except.ok x, Except.ok y =>
    if h : x = y then isTrue (by rw [h]) else isFalse (by simp [h])
  | Except.error x, Except.error y =>
    if h : x = y then isTrue (by rw [h]) else isFalse (by simp [h])
  | Except.ok _, Except.error _ => isFalse (by simp)
  | Except.error _, Except.ok _ => isFalse (by simp)

/-- The class invariant: the cursor is inside the logical content and
`mSize` counts exactly the bytes held by `mBuffer`. -/
def Inv (st : EState) : Prop :=
  0 ≤ st.mPosition ∧ st.mPosition ≤ st.mSize ∧
    st.mSize = (st.mBuffer.length : Int)

instance (st : EState) : Decidable (Inv st) := by
  unfold Inv; infer_instance

/-! ### Branch equations for each operation -/

theorem Read_eq_nonpos (st : EState) (L : Int) (h1 : L ≤ 0) :
    Read st L = (0, [], st) := by
  simp [Read, h1]

theorem Read_eq_within (st : EState) (L : Int) (h1 : 0 < L)
    (h2 : L ≤ st.mSize - st.mPosition) :
    Read st L =
      (L, (st.mBuffer.drop st.mPosition.toNat).take L.toNat,
        { st with mPosition := st.mPosition + L }) := by
  have h3 : ¬ L ≤ 0 := not_le.mpr h1
  have h4 : L ≠ 0 := by omega
  simp [Read, h2, h3, h4]

theorem Read_eq_at_end (st : EState) (L : Int) (h1 : 0 < L)
    (h2 : ¬ L ≤ st.mSize - st.mPosition) (h3 : st.mSize - st.mPosition = 0) :
    Read st L = (0, [], st) := by
  have h4 : ¬ L ≤ 0 := not_le.mpr h1
  simp [Read, h2, h3, h4]

theorem Read_eq_clamped (st : EState) (L : Int) (h1 : 0 < L)
    (h2 : ¬ L ≤ st.mSize - st.mPosition) (h3 : st.mSize - st.mPosition ≠ 0) :
    Read st L =
      (st.mSize - st.mPosition,
        (st.mBuffer.drop st.mPosition.toNat).take (st.mSize - st.mPosition).toNat,
        { st with mPosition := st.mPosition + (st.mSize - st.mPosition) }) := by
  have h4 : ¬ L ≤ 0 := not_le.mpr h1
  simp [Read, h2, h3, h4]

theorem Insert_eq_nonpos (st : EState) (B : Nat → Nat) (n : Int)
    (h1 : n ≤ 0) : Insert st B n = (Except.ok 0, st) := by
  simp [Insert, h1]

theorem Insert_eq_overflow (st : EState) (B : Nat → Nat) (n : Int)
    (h1 : 0 < n) (h2 : int64Max - st.mSize < n) :
    Insert st B n =
      (Except.error "Inserting buffer would exceed maximum stream length.",
        st) := by
  have h3 : ¬ n ≤ 0 := not_le.mpr h1
  simp [Insert, h2, h3]

theorem Insert_eq_ok (st : EState) (B : Nat → Nat) (n : Int)
    (h1 : 0 < n) (h2 : ¬ int64Max - st.mSize < n) :
    Insert st B n =
      (Except.ok n,
        { mBuffer := st.mBuffer.take st.mPosition.toNat
            ++ (List.range n.toNat).map B
            ++ st.mBuffer.drop st.mPosition.toNat,
          mSize := st.mSize + n,
          mPosition := st.mPosition + n }) := by
  have h3 : ¬ n ≤ 0 := not_le.mpr h1
  simp [Insert, h2, h3]

theorem Delete_eq_nonpos (st : EState) (n : Int) (h1 : n ≤ 0) :
    Delete st n = (0, st) := by
  simp [Delete, h1]

theorem Delete_eq_within (st : EState) (n : Int) (h1 : 0 < n)
    (h2 : n ≤ st.mSize - st.mPosition) :
    Delete st n =
      (n,
        { st with
          mBuffer := st.mBuffer.take st.mPosition.toNat
            ++ st.mBuffer.drop (st.mPosition + n).toNat,
          mSize := st.mSize - n }) := by
  have h3 : ¬ n ≤ 0 := not_le.mpr h1
  have h4 : n ≠ 0 := by omega
  simp [Delete, h2, h3, h4]

theorem Delete_eq_at_end (st : EState) (n : Int) (h1 : 0 < n)
    (h2 : ¬ n ≤ st.mSize - st.mPosition) (h3 : st.mSize - st.mPosition = 0) :
    Delete st n = (0, st) := by
  have h4 : ¬ n ≤ 0 := not_le.mpr h1
  simp [Delete, h2, h3, h4]

theorem Delete_eq_clamped (st : EState) (n : Int) (h1 : 0 < n)
    (h2 : ¬ n ≤ st.mSize - st.mPosition) (h3 : st.mSize - st.mPosition ≠ 0) :
    Delete st n =
      (st.mSize - st.mPosition,
        { st with
          mBuffer := st.mBuffer.take st.mPosition.toNat
            ++ st.mBuffer.drop
                (st.mPosition + (st.mSize - st.mPosition)).toNat,
          mSize := st.mSize - (st.mSize - st.mPosition) }) := by
  have h4 : ¬ n ≤ 0 := not_le.mpr h1
  simp [Delete, h2, h3, h4]

theorem Seek_eq_neg (st : EState) (p : Int) (h1 : p < 0) :
    Seek st p = (Except.error "Position must not be less than zero.", st) := by
  simp [Seek, h1]

theorem Seek_eq_beyond (st : EState) (p : Int) (h1 : ¬ p < 0)
    (h2 : st.mSize < p) :
    Seek st p =
      (Except.error "Position must not be larger than size.", st) := by
  simp [Seek, h1, h2]

theorem Seek_eq_ok (st : EState) (p : Int) (h1 : ¬ p < 0)
    (h2 : ¬ st.mSize < p) :
    Seek st p = (Except.ok (), { st with mPosition := p }) := by
  simp [Seek, h1, h2]

/-! ### Helper lemmas shared by several theorems -/

/-- Characterisation of `Delete` for a positive request: it clamps to the
bytes between the cursor and the end, removes them, and keeps the cursor. -/
theorem Delete_spec_aux (st : EState) (n : Int) (hinv : Inv st) (hn : 0 < n) :
    (Delete st n).1 = min n (st.mSize - st.mPosition) ∧
    (Delete st n).2.mSize = st.mSize - min n (st.mSize - st.mPosition) ∧
    (Delete st n).2.mPosition = st.mPosition ∧
    (Delete st n).2.mBuffer =
      st.mBuffer.take st.mPosition.toNat
        ++ st.mBuffer.drop
            (st.mPosition + min n (st.mSize - st.mPosition)).toNat := by
  obtain ⟨hp, hps, hsb⟩ := hinv
  by_cases h2 : n ≤ st.mSize - st.mPosition
  · have hmin : min n (st.mSize - st.mPosition) = n := min_eq_left h2
    rw [Delete_eq_within st n hn h2, hmin]
    exact ⟨rfl, rfl, rfl, rfl⟩
  · have hmin : min n (st.mSize - st.mPosition) = st.mSize - st.mPosition :=
      min_eq_right (by omega)
    by_cases h4 : st.mSize - st.mPosition = 0
    · rw [Delete_eq_at_end st n hn h2 h4, hmin, h4]
      refine ⟨rfl, by dsimp only; omega, rfl, ?_⟩
      rw [add_zero, List.take_append_drop]
    · rw [Delete_eq_clamped st n hn h2 h4, hmin]
      exact ⟨rfl, rfl, rfl, rfl⟩

/-- `Read` keeps the invariant. -/
theorem Inv_Read (st : EState) (n : Int) (h : Inv st) : Inv (Read st n).2.2 := by
  obtain ⟨hp, hps, hsb⟩ := h
  by_cases h1 : n ≤ 0
  · rw [Read_eq_nonpos st n h1]; exact ⟨hp, hps, hsb⟩
  · replace h1 : 0 < n := by omega
    by_cases h2 : n ≤ st.mSize - st.mPosition
    · rw [Read_eq_within st n h1 h2]
      refine ⟨?_, ?_, hsb⟩ <;> (dsimp only; omega)
    · by_cases h3 : st.mSize - st.mPosition = 0
      · rw [Read_eq_at_end st n h1 h2 h3]; exact ⟨hp, hps, hsb⟩
      · rw [Read_eq_clamped st n h1 h2 h3]
        refine ⟨?_, ?_, hsb⟩ <;> (dsimp only; omega)

/-- `Insert` keeps the invariant, also when it throws. -/
theorem Inv_Insert (st : EState) (B : Nat → Nat) (n : Int) (h : Inv st) :
    Inv (Insert st B n).2 := by
  obtain ⟨hp, hps, hsb⟩ := h
  by_cases h1 : n ≤ 0
  · rw [Insert_eq_nonpos st B n h1]; exact ⟨hp, hps, hsb⟩
  · replace h1 : 0 < n := by omega
    by_cases h2 : int64Max - st.mSize < n
    · rw [Insert_eq_overflow st B n h1 h2]; exact ⟨hp, hps, hsb⟩
    · rw [Insert_eq_ok st B n h1 h2]
      refine ⟨by dsimp only; omega, by dsimp only; omega, ?_⟩
      simp only [List.length_append, List.length_take, List.length_drop,
        List.length_map, List.length_range]
      push_cast
      omega

/-- `Delete` keeps the invariant. -/
theorem Inv_Delete (st : EState) (n : Int) (h : Inv st) :
    Inv (Delete st n).2 := by
  have h0 := h
  obtain ⟨hp, hps, hsb⟩ := h
  by_cases h1 : n ≤ 0
  · rw [Delete_eq_nonpos st n h1]; exact ⟨hp, hps, hsb⟩
  · replace h1 : 0 < n := by omega
    obtain ⟨-, hsize, hpos, hbuf⟩ := Delete_spec_aux st n h0 h1
    refine ⟨by rw [hpos]; omega, by rw [hpos, hsize]; omega, ?_⟩
    rw [hsize, hbuf]
    simp only [List.length_append, List.length_take, List.length_drop]
    push_cast
    omega

/-- `Update` keeps the invariant, also when the `Insert` step throws. -/
theorem Inv_Update (st : EState) (B : Nat → Nat) (n r : Int) (h : Inv st) :
    Inv (Update st B n r).2 :=
  Inv_Insert _ B n (Inv_Delete st r h)

/-- `Seek` keeps the invariant, also when it throws. -/
theorem Inv_Seek (st : EState) (p : Int) (h : Inv st) : Inv (Seek st p).2 := by
  obtain ⟨hp, hps, hsb⟩ := h
  by_cases h1 : p < 0
  · rw [Seek_eq_neg st p h1]; exact ⟨hp, hps, hsb⟩
  · by_cases h2 : st.mSize < p
    · rw [Seek_eq_beyond st p h1 h2]; exact ⟨hp, hps, hsb⟩
    · rw [Seek_eq_ok st p h1 h2]
      refine ⟨?_, ?_, hsb⟩ <;> (dsimp only; omega)

/-! ### The claims -/

/-- C1: for every stream state and all arguments, `Update(B, n, r)` is the
same call as `Delete(r)` followed by `Insert(B, n)` on the same starting
state: same resulting buffer content, size and position, also when
`n ≠ r`, and the value returned by `Update` is the value returned by that
`Insert`. -/
theorem update_refines_delete_then_insert (st : EState) (B : Nat → Nat)
    (n r : Int) :
    Update st B n r = Insert (Delete st r).2 B n ∧
    (Update st B n r).2 = (Insert (Delete st r).2 B n).2 ∧
    (Update st B n r).1 = (Insert (Delete st r).2 B n).1 :=
  ⟨rfl, rfl, rfl⟩

/-- C5: for every stream state, buffer and length, `Write(B, n)` produces
exactly the same resulting buffer content, size, position and return value
as `Update(B, n, n)`. -/
theorem write_refines_update (st : EState) (B : Nat → Nat) (n : Int) :
    Write st B n = Update st B n n ∧
    (Write st B n).2 = (Update st B n n).2 ∧
    (Write st B n).1 = (Update st B n n).1 :=
  ⟨rfl, rfl, rfl⟩

/-- C2: for every stream state with position `p` and size `s`, and every
`n > 0` with `s + n` within the signed 64-bit range, `Insert(B, n)`
splices the `n` bytes of `B` into the buffer at offset `p` (shifting the
content at and after `p` forward), increases the size by exactly `n`,
sets the position to `p + n`, and returns `n`. -/
theorem insert_functional_correctness (st : EState) (B : Nat → Nat)
    (n : Int) (hinv : Inv st) (hn : 0 < n)
    (hov : st.mSize + n ≤ int64Max) :
    (Insert st B n).1 = Except.ok n ∧
    (Insert st B n).2.mBuffer =
      st.mBuffer.take st.mPosition.toNat ++ (List.range n.toNat).map B
        ++ st.mBuffer.drop st.mPosition.toNat ∧
    (Insert st B n).2.mSize = st.mSize + n ∧
    (Insert st B n).2.mPosition = st.mPosition + n := by
  have h2 : ¬ int64Max - st.mSize < n := by omega
  rw [Insert_eq_ok st B n hn h2]
  exact ⟨rfl, rfl, rfl, rfl⟩

/-- Witness for C2 at the state `([1,2,3], 3, 1)` with two bytes `9`. -/
theorem insert_functional_correctness_witness :
    Inv ⟨[1, 2, 3], 3, 1⟩ ∧ (0 : Int) < 2 ∧ (3 : Int) + 2 ≤ int64Max ∧
    (Insert ⟨[1, 2, 3], 3, 1⟩ (fun _ => 9) 2).1 = Except.ok 2 ∧
    (Insert ⟨[1, 2, 3], 3, 1⟩ (fun _ => 9) 2).2.mSize = 3 + 2 ∧
    (Insert ⟨[1, 2, 3], 3, 1⟩ (fun _ => 9) 2).2.mPosition = 1 + 2 :=
  ⟨by decide, by decide, by decide,
    (insert_functional_correctness ⟨[1, 2, 3], 3, 1⟩ (fun _ => 9) 2
      (by decide) (by decide) (by decide)).1,
    (insert_functional_correctness ⟨[1, 2, 3], 3, 1⟩ (fun _ => 9) 2
      (by decide) (by decide) (by decide)).2.2.1,
    (insert_functional_correctness ⟨[1, 2, 3], 3, 1⟩ (fun _ => 9) 2
      (by decide) (by decide) (by decide)).2.2.2⟩

/-- C3: for every stream state with position `p` and size `s`, and every
`n > 0`, `Delete(n)` removes exactly `min(n, s - p)` bytes starting at
offset `p`, decreases the size by that amount, returns that amount, and
leaves the position equal to `p`. -/
theorem delete_functional_correctness (st : EState) (n : Int)
    (hinv : Inv st) (hn : 0 < n) :
    (Delete st n).1 = min n (st.mSize - st.mPosition) ∧
    (Delete st n).2.mSize = st.mSize - min n (st.mSize - st.mPosition) ∧
    (Delete st n).2.mPosition = st.mPosition ∧
    (Delete st n).2.mBuffer =
      st.mBuffer.take st.mPosition.toNat
        ++ st.mBuffer.drop
            (st.mPosition + min n (st.mSize - st.mPosition)).toNat :=
  Delete_spec_aux st n hinv hn

/-- Witness for C3 at the state `([1,2,3,4], 4, 1)` deleting two bytes. -/
theorem delete_functional_correctness_witness :
    Inv ⟨[1, 2, 3, 4], 4, 1⟩ ∧ (0 : Int) < 2 ∧
    (Delete ⟨[1, 2, 3, 4], 4, 1⟩ 2).1 = min 2 (4 - 1) ∧
    (Delete ⟨[1, 2, 3, 4], 4, 1⟩ 2).2.mSize = 4 - min 2 (4 - 1) ∧
    (Delete ⟨[1, 2, 3, 4], 4, 1⟩ 2).2.mPosition = 1 :=
  ⟨by decide, by decide,
    (delete_functional_correctness ⟨[1, 2, 3, 4], 4, 1⟩ 2
      (by decide) (by decide)).1,
    (delete_functional_correctness ⟨[1, 2, 3, 4], 4, 1⟩ 2
      (by decide) (by decide)).2.1,
    (delete_functional_correctness ⟨[1, 2, 3, 4], 4, 1⟩ 2
      (by decide) (by decide)).2.2.1⟩

/-- C4: for every stream state with position `p` and size `s` and every
length `L`, `Read(buffer, L)` copies exactly `min(L, s - p)` bytes of the
internal buffer starting at offset `p` (and `0` bytes when `L ≤ 0`),
advances the position by that count, returns that count, and leaves the
internal buffer content and size unchanged; in particular it returns `0`
with no state change when `L ≤ 0` or when `p = s`. -/
theorem read_functional_correctness (st : EState) (L : Int)
    (hinv : Inv st) :
    (Read st L).1 = (if L ≤ 0 then 0 else min L (st.mSize - st.mPosition)) ∧
    (Read st L).2.1 =
      (st.mBuffer.drop st.mPosition.toNat).take (Read st L).1.toNat ∧
    (Read st L).2.2.mPosition = st.mPosition + (Read st L).1 ∧
    (Read st L).2.2.mBuffer = st.mBuffer ∧
    (Read st L).2.2.mSize = st.mSize := by
  obtain ⟨hp, hps, hsb⟩ := hinv
  by_cases h1 : L ≤ 0
  · rw [Read_eq_nonpos st L h1]
    simp [h1]
  · replace h1 : 0 < L := by omega
    have h1n : ¬ L ≤ 0 := not_le.mpr h1
    by_cases h2 : L ≤ st.mSize - st.mPosition
    · rw [Read_eq_within st L h1 h2]
      dsimp only
      rw [if_neg h1n, min_eq_left h2]
      exact ⟨rfl, rfl, rfl, rfl, rfl⟩
    · by_cases h3 : st.mSize - st.mPosition = 0
      · rw [Read_eq_at_end st L h1 h2 h3]
        dsimp only
        rw [if_neg h1n, h3, min_eq_right (by omega)]
        refine ⟨rfl, by simp, by omega, rfl, rfl⟩
      · rw [Read_eq_clamped st L h1 h2 h3]
        dsimp only
        rw [if_neg h1n, min_eq_right (by omega)]
        exact ⟨rfl, rfl, rfl, rfl, rfl⟩

/-- Witness for C4 at the state `([1,2,3], 3, 1)` reading five bytes:
only the two bytes behind the cursor are returned. -/
theorem read_functional_correctness_witness :
    Inv ⟨[1, 2, 3], 3, 1⟩ ∧
    (Read ⟨[1, 2, 3], 3, 1⟩ 5).1 = (if (5 : Int) ≤ 0 then 0 else min 5 (3 - 1)) ∧
    (Read ⟨[1, 2, 3], 3, 1⟩ 5).2.2.mPosition = 1 + (Read ⟨[1, 2, 3], 3, 1⟩ 5).1 ∧
    (Read ⟨[1, 2, 3], 3, 1⟩ 5).2.2.mBuffer = [1, 2, 3] :=
  ⟨by decide,
    (read_functional_correctness ⟨[1, 2, 3], 3, 1⟩ 5 (by decide)).1,
    (read_functional_correctness ⟨[1, 2, 3], 3, 1⟩ 5 (by decide)).2.2.1,
    (read_functional_correctness ⟨[1, 2, 3], 3, 1⟩ 5 (by decide)).2.2.2.1⟩

/-- C6: `Seek(p)` raises an error exactly when `p < 0` or `p` exceeds the
size; on failure the state is unchanged; for every `p` in `[0, size]` it
succeeds, sets the cursor to `p` without touching buffer or size, and a
subsequent `Position()` returns `p`. -/
theorem seek_error_iff (st : EState) (p : Int) :
    (isErr (Seek st p).1 = true ↔ (p < 0 ∨ st.mSize < p)) ∧
    ((p < 0 ∨ st.mSize < p) → (Seek st p).2 = st) ∧
    (0 ≤ p → p ≤ st.mSize →
      (Seek st p).1 = Except.ok () ∧
      (Seek st p).2.mBuffer = st.mBuffer ∧
      (Seek st p).2.mSize = st.mSize ∧
      (Position (Seek st p).2).1 = p) := by
  by_cases h1 : p < 0
  · rw [Seek_eq_neg st p h1]
    exact ⟨⟨fun _ => Or.inl h1, fun _ => rfl⟩, fun _ => rfl,
      fun h _ => absurd h (not_le.mpr h1)⟩
  · by_cases h2 : st.mSize < p
    · rw [Seek_eq_beyond st p h1 h2]
      exact ⟨⟨fun _ => Or.inr h2, fun _ => rfl⟩, fun _ => rfl,
        fun _ hps => absurd h2 (not_lt.mpr hps)⟩
    · rw [Seek_eq_ok st p h1 h2]
      refine ⟨⟨fun hc => ?_, fun hc => ?_⟩, fun hc => ?_,
        fun _ _ => ⟨rfl, rfl, rfl, rfl⟩⟩
      · simp [isErr] at hc
      · rcases hc with h | h <;> omega
      · rcases hc with h | h <;> omega

/-- Witness for C6: at the state `([5, 6], 2, 0)`, `Seek 2` succeeds and
a subsequent `Position()` returns `2`, while `Seek 3` fails and leaves
the state unchanged. -/
theorem seek_error_iff_witness :
    ((0 : Int) ≤ 2 ∧ (2 : Int) ≤ 2) ∧
    ((Seek ⟨[5, 6], 2, 0⟩ 2).1 = Except.ok () ∧
      (Position (Seek ⟨[5, 6], 2, 0⟩ 2).2).1 = 2) ∧
    (Seek ⟨[5, 6], 2, 0⟩ 3).2 = ⟨[5, 6], 2, 0⟩ :=
  ⟨⟨by decide, by decide⟩,
    ⟨((seek_error_iff ⟨[5, 6], 2, 0⟩ 2).2.2 (by decide) (by decide)).1,
      ((seek_error_iff ⟨[5, 6], 2, 0⟩ 2).2.2 (by decide) (by decide)).2.2.2⟩,
    (seek_error_iff ⟨[5, 6], 2, 0⟩ 3).2.1 (Or.inr (by decide))⟩

/-- C7 counterexample: `Update(B, 0, 1)` on the one-byte stream made from
`[7]` returns 0 and raises no error, yet the state is changed: the
`Delete(1)` step has removed the byte, so the claim that a non-positive
buffer length makes `Update` a state-preserving no-op for every
`replaceLength` is false. -/
theorem update_nonpos_changes_state :
    (Update (mkStream [7]) (fun _ => 0) 0 1).1 = Except.ok 0 ∧
    (Update (mkStream [7]) (fun _ => 0) 0 1).2 ≠ mkStream [7] ∧
    (Update (mkStream [7]) (fun _ => 0) 0 1).2.mSize = 0 := by
  decide

/-- C7 (amended): `Read`, `Insert`, `Delete` and `Write` with a
non-positive length are successful no-ops that return 0 and leave the
stream unchanged; `Update(B, n, r)` with `n ≤ 0` returns 0 and raises no
error, but it still performs `Delete(r)` first, so its final state is the
post-`Delete(r)` state, and the stream is unchanged when `r ≤ 0` as
well. -/
theorem nonpositive_length_noop (st : EState) (B : Nat → Nat) (n r : Int)
    (hn : n ≤ 0) :
    Read st n = (0, [], st) ∧
    Insert st B n = (Except.ok 0, st) ∧
    Delete st n = (0, st) ∧
    Write st B n = (Except.ok 0, st) ∧
    (Update st B n r).1 = Except.ok 0 ∧
    (Update st B n r).2 = (Delete st r).2 ∧
    (r ≤ 0 → Update st B n r = (Except.ok 0, st)) := by
  have hd : Delete st n = (0, st) := Delete_eq_nonpos st n hn
  have hu : Update st B n r = (Except.ok 0, (Delete st r).2) :=
    Insert_eq_nonpos (Delete st r).2 B n hn
  refine ⟨Read_eq_nonpos st n hn, Insert_eq_nonpos st B n hn, hd, ?_,
    by rw [hu], by rw [hu], fun hr0 => ?_⟩
  · show Insert (Delete st n).2 B n = (Except.ok 0, st)
    rw [hd]
    exact Insert_eq_nonpos st B n hn
  · rw [hu, Delete_eq_nonpos st r hr0]

/-- Witness for C7 (amended) at the state `([5], 1, 0)` with `n = 0`,
`r = -3`. -/
theorem nonpositive_length_noop_witness :
    (0 : Int) ≤ 0 ∧ ((-3 : Int) ≤ 0) ∧
    Read ⟨[5], 1, 0⟩ 0 = (0, [], ⟨[5], 1, 0⟩) ∧
    Update ⟨[5], 1, 0⟩ (fun _ => 2) 0 (-3) = (Except.ok 0, ⟨[5], 1, 0⟩) :=
  ⟨by decide, by decide,
    (nonpositive_length_noop ⟨[5], 1, 0⟩ (fun _ => 2) 0 (-3) (by decide)).1,
    (nonpositive_length_noop ⟨[5], 1, 0⟩ (fun _ => 2) 0 (-3)
      (by decide)).2.2.2.2.2.2 (by decide)⟩

/-- C8: `Insert(B, n)` with `n > 0` raises the overflow error exactly
when `int64Max - size < n`, which is exactly when `size + n` would exceed
the maximum representable signed 64-bit length; for all smaller `n` it
does not raise. -/
theorem insert_overflow_iff (st : EState) (B : Nat → Nat) (n : Int)
    (hn : 0 < n) :
    (isErr (Insert st B n).1 = true ↔ int64Max - st.mSize < n) ∧
    (int64Max - st.mSize < n ↔ int64Max < st.mSize + n) := by
  constructor
  · by_cases h2 : int64Max - st.mSize < n
    · rw [Insert_eq_overflow st B n hn h2]
      exact ⟨fun _ => h2, fun _ => rfl⟩
    · rw [Insert_eq_ok st B n hn h2]
      exact ⟨fun hc => by simp [isErr] at hc, fun hc => absurd hc h2⟩
  · omega

/-- Witness for C8: inserting one byte at size `int64Max` raises, while
inserting one byte at size 0 does not. -/
theorem insert_overflow_iff_witness :
    (0 : Int) < 1 ∧
    isErr (Insert ⟨[], int64Max, 0⟩ (fun _ => 0) 1).1 = true ∧
    isErr (Insert ⟨[], 0, 0⟩ (fun _ => 0) 1).1 = false :=
  ⟨by decide,
    (insert_overflow_iff ⟨[], int64Max, 0⟩ (fun _ => 0) 1
      (by decide)).1.mpr (by decide),
    Bool.eq_false_iff.mpr fun hc =>
      absurd ((insert_overflow_iff ⟨[], 0, 0⟩ (fun _ => 0) 1
        (by decide)).1.mp hc) (by decide)⟩

/-- C9: the invariant `0 ≤ position ≤ size` with `size` equal to the
byte count of the internal buffer is established by the constructor
(size is the length of the moved-in sequence, position 0) and preserved
by every operation, also when the operation raises an error. -/
theorem invariant_established_and_preserved (st : EState) (B : Nat → Nat)
    (bs : List Nat) (n r p v : Int) (hinv : Inv st) :
    ((mkStream bs).mSize = (bs.length : Int) ∧ (mkStream bs).mPosition = 0 ∧
      Inv (mkStream bs)) ∧
    Inv (Read st n).2.2 ∧
    Inv (Write st B n).2 ∧
    Inv (Insert st B n).2 ∧
    Inv (Delete st n).2 ∧
    Inv (Update st B n r).2 ∧
    Inv (Seek st p).2 ∧
    Inv (Flush st).2 ∧
    Inv (Position st).2 ∧
    Inv (SizeGet st).2 ∧
    Inv (SizeSet st v).2 :=
  ⟨⟨rfl, rfl, le_refl 0, Int.natCast_nonneg bs.length, rfl⟩,
    Inv_Read st n hinv,
    Inv_Update st B n n hinv,
    Inv_Insert st B n hinv,
    Inv_Delete st n hinv,
    Inv_Update st B n r hinv,
    Inv_Seek st p hinv,
    hinv, hinv, hinv, hinv⟩

/-- Witness for C9 at the state `([1, 2], 2, 1)`. -/
theorem invariant_established_and_preserved_witness :
    Inv ⟨[1, 2], 2, 1⟩ ∧
    Inv (mkStream [3, 4, 5]) ∧
    Inv (Update ⟨[1, 2], 2, 1⟩ (fun _ => 9) 3 1).2 ∧
    Inv (Seek ⟨[1, 2], 2, 1⟩ 7).2 :=
  ⟨by decide,
    (invariant_established_and_preserved ⟨[1, 2], 2, 1⟩ (fun _ => 9)
      [3, 4, 5] 3 1 7 0 (by decide)).1.2.2,
    (invariant_established_and_preserved ⟨[1, 2], 2, 1⟩ (fun _ => 9)
      [3, 4, 5] 3 1 7 0 (by decide)).2.2.2.2.2.1,
    (invariant_established_and_preserved ⟨[1, 2], 2, 1⟩ (fun _ => 9)
      [3, 4, 5] 3 1 7 0 (by decide)).2.2.2.2.2.2.1⟩

/-- C10: `Seek`, the size setter and a directly-called `Insert` leave the
state exactly as it was when they raise; but when `Update(B, n, r)`
raises the overflow error from its `Insert` step, the final state is the
state after `Delete(r)`: for `r > 0` the size has decreased by
`min(r, size - position)` and those bytes are gone, so whenever that
minimum is positive the state after the failing `Update` differs from
the starting state. -/
theorem error_atomicity (st : EState) (B : Nat → Nat) (n r p v : Int)
    (hinv : Inv st) :
    (isErr (Seek st p).1 = true → (Seek st p).2 = st) ∧
    (isErr (SizeSet st v).1 = true ∧ (SizeSet st v).2 = st) ∧
    (isErr (Insert st B n).1 = true → (Insert st B n).2 = st) ∧
    (isErr (Update st B n r).1 = true →
      (Update st B n r).2 = (Delete st r).2 ∧
      (0 < r →
        (Delete st r).2.mSize = st.mSize - min r (st.mSize - st.mPosition) ∧
        (Delete st r).2.mBuffer =
          st.mBuffer.take st.mPosition.toNat
            ++ st.mBuffer.drop
                (st.mPosition + min r (st.mSize - st.mPosition)).toNat) ∧
      (0 < min r (st.mSize - st.mPosition) → (Update st B n r).2 ≠ st)) := by
  have hseek : isErr (Seek st p).1 = true → (Seek st p).2 = st := by
    by_cases h1 : p < 0
    · rw [Seek_eq_neg st p h1]; exact fun _ => rfl
    · by_cases h2 : st.mSize < p
      · rw [Seek_eq_beyond st p h1 h2]; exact fun _ => rfl
      · rw [Seek_eq_ok st p h1 h2]; intro hc; simp [isErr] at hc
  have hins : ∀ s2 : EState, isErr (Insert s2 B n).1 = true →
      (Insert s2 B n).2 = s2 := by
    intro s2
    by_cases h1 : n ≤ 0
    · rw [Insert_eq_nonpos s2 B n h1]; intro hc; simp [isErr] at hc
    · replace h1 : 0 < n := by omega
      by_cases h2 : int64Max - s2.mSize < n
      · rw [Insert_eq_overflow s2 B n h1 h2]; exact fun _ => rfl
      · rw [Insert_eq_ok s2 B n h1 h2]; intro hc; simp [isErr] at hc
  refine ⟨hseek, ⟨rfl, rfl⟩, hins st, fun herr => ?_⟩
  have hupd : (Update st B n r).2 = (Delete st r).2 := hins (Delete st r).2 herr
  refine ⟨hupd,
    fun hr => ⟨(Delete_spec_aux st r hinv hr).2.1,
      (Delete_spec_aux st r hinv hr).2.2.2⟩,
    fun hmin heq => ?_⟩
  have hr : 0 < r := lt_of_lt_of_le hmin (min_le_left _ _)
  have hsz := (Delete_spec_aux st r hinv hr).2.1
  rw [hupd] at heq
  rw [heq] at hsz
  omega

/-- Witness for C10 at the state `([1], 1, 0)`: the unsupported size
setter raises and leaves the state exactly as it was. -/
theorem error_atomicity_witness :
    Inv ⟨[1], 1, 0⟩ ∧
    (isErr (SizeSet ⟨[1], 1, 0⟩ 5).1 = true ∧
      (SizeSet ⟨[1], 1, 0⟩ 5).2 = ⟨[1], 1, 0⟩) :=
  ⟨by decide,
    (error_atomicity ⟨[1], 1, 0⟩ (fun _ => 0) 1 1 2 5 (by decide)).2.1⟩

end EditableStreamOverBuffer
